import Mathlib

/-!
Shallow embedding of the AcousticBrainz enrichment pipeline of
`scripts/enrich_acousticbrainz.py`.

The script reads tracks with ISRC codes from `bronze_tracks`, resolves each
ISRC to MusicBrainz recording ids (`lookup_isrc_in_musicbrainz`), fetches
audio features from AcousticBrainz per MBID (`fetch_acousticbrainz_features`),
and persists outcomes into two DuckDB tables:
`bronze_isrc_mbid_mapping` (keyed by isrc, `INSERT OR REPLACE`) and
`bronze_acousticbrainz_features` (keyed by `(track_id, mbid)`,
`INSERT OR REPLACE`).

External HTTP traffic is modelled by oracles: the MusicBrainz service is a
function from ISRC to an abstract response, the AcousticBrainz service a
function from MBID to an abstract response.  The run records an event trace
of the external calls it issues and of every `time.sleep` it executes
(durations in tenths of a second, so `sleep 10` is `time.sleep(1)` and
`sleep 15` is `time.sleep(1.5)`).
-/

namespace Enrich

/-- One entry of a MusicBrainz recording's `artist-credit` list; the script
reads its `name` key with default `''`. -/
structure MBArtistCredit where
  name : Option String
  deriving DecidableEq

/-- One recording object of a MusicBrainz ISRC-lookup response body.
The script reads `rec.get('id')`, `rec.get('title', '')` and
`rec.get('artist-credit')`. -/
structure MBRecording where
  id : Option String
  title : Option String
  artistCredit : List MBArtistCredit
  deriving DecidableEq

/-- Outcome of one HTTP request to the MusicBrainz ISRC endpoint, as the
script distinguishes them: status 200 with a parsed JSON body carrying a
`recordings` list (missing key defaults to `[]`), status 404, any other
status, or an exception raised during the request (`except` branch of
`lookup_isrc_in_musicbrainz`, which also covers malformed JSON). -/
inductive MBResponse
  | ok (recordings : List MBRecording)
  | notFound
  | otherStatus (code : Nat)
  | exn
  deriving DecidableEq

/-- One candidate returned by `lookup_isrc_in_musicbrainz`: the Python tuple
`(mbid, title, artist)`; `mbid` is `rec.get('id')`, hence possibly `None`. -/
structure Candidate where
  mbid : Option String
  title : String
  artist : String
  deriving DecidableEq

/-- `lookup_isrc_in_musicbrainz` (lines 97-135): on a 200 response with a
non-empty `recordings` list it returns the list of `(mbid, title, artist)`
tuples in response order; on a 200 response with an empty list it returns
`[]`; on 404 it returns `[]`; on any other status or an exception it returns
`None` (here `none`), the error marker. -/
def lookup_isrc_in_musicbrainz : MBResponse → Option (List Candidate)
  | MBResponse.ok recordings =>
      if recordings.isEmpty then
        some []
      else
        some (recordings.map fun rec =>
          { mbid := rec.id
            title := rec.title.getD ""
            artist :=
              match rec.artistCredit with
              | [] => ""
              | ac :: _ => ac.name.getD "" })
  | MBResponse.notFound => some []
  | MBResponse.otherStatus _ => none
  | MBResponse.exn => none

/-- A JSON object from which the script reads a `mean` key with default
`0.0` (used for `bpm_histogram_*_peak_bpm` and `lowlevel.loudness`). -/
structure ABMeanObj where
  mean : Option Rat
  deriving DecidableEq

/-- The `rhythm` section of an AcousticBrainz low-level payload, restricted
to the keys the script reads. -/
structure ABRhythm where
  bpm : Option Rat
  bpm_histogram_first_peak_bpm : Option ABMeanObj
  bpm_histogram_second_peak_bpm : Option ABMeanObj
  danceability : Option Rat
  onset_rate : Option Rat
  deriving DecidableEq

/-- The `tonal` section, restricted to the keys the script reads (the script
applies `str(...)`, so the values are modelled already stringified). -/
structure ABTonal where
  key_key : Option String
  key_scale : Option String
  deriving DecidableEq

/-- The `lowlevel` section, restricted to the keys the script reads. -/
structure ABLowlevel where
  loudness : Option ABMeanObj
  dynamic_complexity : Option Rat
  deriving DecidableEq

/-- An AcousticBrainz low-level response body: the three sections the script
navigates (each optional, defaulting to an empty object) plus the raw
payload text the script keeps via `json.dumps(data)`. -/
structure ABPayload where
  rhythm : Option ABRhythm
  tonal : Option ABTonal
  lowlevel : Option ABLowlevel
  rawText : String
  deriving DecidableEq

/-- Outcome of one HTTP request to the AcousticBrainz low-level endpoint:
status 200 with a parsed body, 404, any other status, or an exception. -/
inductive ABResponse
  | ok (payload : ABPayload)
  | notFound
  | otherStatus (code : Nat)
  | exn
  deriving DecidableEq

/-- The features dict built by `fetch_acousticbrainz_features` (lines
154-165). -/
structure Features where
  tempo : Rat
  bpm_histogram_first_peak : Rat
  bpm_histogram_second_peak : Rat
  danceability : Rat
  onset_rate : Rat
  loudness_mean : Rat
  dynamic_complexity : Rat
  key_key : String
  key_scale : String
  raw_json : String
  deriving DecidableEq

/-- `o.get(key, {}).get('mean', 0.0)` for the nested mean-carrying keys. -/
def meanOf (o : Option ABMeanObj) : Rat :=
  ((o.getD { mean := none }).mean).getD 0

/-- `fetch_acousticbrainz_features` (lines 137-174): on a 200 response it
extracts the feature dict with per-key defaults; on 404, any other status,
or an exception it returns `None` (here `none`).  The script does not
distinguish absence from error at this layer. -/
def fetch_acousticbrainz_features : ABResponse → Option Features
  | ABResponse.ok d =>
      let rhythm := d.rhythm.getD
        { bpm := none, bpm_histogram_first_peak_bpm := none,
          bpm_histogram_second_peak_bpm := none, danceability := none,
          onset_rate := none }
      let tonal := d.tonal.getD { key_key := none, key_scale := none }
      let lowlevel := d.lowlevel.getD
        { loudness := none, dynamic_complexity := none }
      some
        { tempo := rhythm.bpm.getD 0
          bpm_histogram_first_peak := meanOf rhythm.bpm_histogram_first_peak_bpm
          bpm_histogram_second_peak := meanOf rhythm.bpm_histogram_second_peak_bpm
          danceability := rhythm.danceability.getD 0
          onset_rate := rhythm.onset_rate.getD 0
          loudness_mean := meanOf lowlevel.loudness
          dynamic_complexity := lowlevel.dynamic_complexity.getD 0
          key_key := tonal.key_key.getD "unknown"
          key_scale := tonal.key_scale.getD "unknown"
          raw_json := d.rawText }
  | ABResponse.notFound => none
  | ABResponse.otherStatus _ => none
  | ABResponse.exn => none

/-- A row of `bronze_isrc_mbid_mapping` (DDL lines 60-69): isrc is the
primary key; `lookup_status` is one of the strings the script writes
(`success`, `not_found`, `error`, `no_ab_data`); `looked_up_at` is the
run's `loaded_at` timestamp, modelled as a `Nat`. -/
structure MappingRow where
  isrc : String
  mbid : Option String
  track_name : String
  artist_name : String
  lookup_status : String
  looked_up_at : Nat
  deriving DecidableEq

/-- A row of `bronze_acousticbrainz_features` (DDL lines 40-58):
`(track_id, mbid)` is the primary key. -/
structure FeatureRow where
  track_id : String
  isrc : String
  mbid : Option String
  tempo : Rat
  bpm_histogram_first_peak : Rat
  bpm_histogram_second_peak : Rat
  danceability : Rat
  onset_rate : Rat
  loudness_mean : Rat
  dynamic_complexity : Rat
  key_key : String
  key_scale : String
  loaded_at : Nat
  raw_json : String
  deriving DecidableEq

/-- The Staging Store: the two DuckDB tables the script writes. -/
structure Store where
  mapping : List MappingRow
  featuresTab : List FeatureRow
  deriving DecidableEq

/-- The empty store (both tables freshly created). -/
def emptyStore : Store := { mapping := [], featuresTab := [] }

/-- `INSERT OR REPLACE INTO bronze_isrc_mbid_mapping`: the row for the same
isrc (the primary key), if any, is replaced. -/
def insertOrReplaceMapping (s : Store) (row : MappingRow) : Store :=
  { s with mapping := row :: s.mapping.filter fun r => !(r.isrc == row.isrc) }

/-- `INSERT OR REPLACE INTO bronze_acousticbrainz_features`: the row for the
same `(track_id, mbid)` key, if any, is replaced. -/
def insertOrReplaceFeature (s : Store) (row : FeatureRow) : Store :=
  { s with featuresTab :=
      row :: s.featuresTab.filter fun r =>
        !(r.track_id == row.track_id && r.mbid == row.mbid) }

/-- The existence check (lines 192-195):
`SELECT lookup_status FROM bronze_isrc_mbid_mapping WHERE isrc = ?`
followed by `fetchone()`. -/
def findMapping (s : Store) (isrc : String) : Option MappingRow :=
  s.mapping.find? fun r => r.isrc == isrc

/-- One row of the upstream `bronze_tracks` table, restricted to the columns
the enrichment query reads (isrc is nullable). -/
structure BronzeTrack where
  track_id : String
  track_name : String
  artist_name : String
  isrc : Option String
  popularity : Int
  deriving DecidableEq

/-- A source record awaiting enrichment: one tuple of the
`tracks_with_isrc` result set. -/
structure SourceRecord where
  track_id : String
  track_name : String
  artist_name : String
  isrc : String
  deriving DecidableEq

/-- `WHERE isrc IS NOT NULL AND isrc != ''` of the `tracks_with_isrc` query
(lines 79-84). -/
def hasIsrc (t : BronzeTrack) : Bool :=
  !(t.isrc == none) && !(t.isrc == some "")

/-- The `tracks_with_isrc` query (lines 79-84): rows of `bronze_tracks`
whose isrc is neither NULL nor empty.  (The query also orders by popularity
descending, which affects processing order only, not membership.) -/
def tracksWithIsrc (rows : List BronzeTrack) : List SourceRecord :=
  (rows.filter hasIsrc).map fun t =>
    { track_id := t.track_id, track_name := t.track_name,
      artist_name := t.artist_name, isrc := t.isrc.getD "" }

/-- One event of a run: an outbound MusicBrainz call, an outbound
AcousticBrainz call, or a `time.sleep` of the given tenths of a second. -/
inductive Ev
  | callMB (isrc : String)
  | callAB (mbid : Option String)
  | sleep (tenths : Nat)
  deriving DecidableEq

/-- The `bronze_isrc_mbid_mapping` row the script writes for record `r`
with the given mbid and status (the VALUES tuples of lines 209-211,
218-220, 254-256 and 270-272). -/
def mappingRow (r : SourceRecord) (mbid : Option String) (status : String)
    (loadedAt : Nat) : MappingRow :=
  { isrc := r.isrc, mbid := mbid, track_name := r.track_name,
    artist_name := r.artist_name, lookup_status := status,
    looked_up_at := loadedAt }

/-- The `bronze_acousticbrainz_features` row the script writes (the VALUES
tuple of lines 234-251). -/
def featureRow (r : SourceRecord) (mbid : Option String) (f : Features)
    (loadedAt : Nat) : FeatureRow :=
  { track_id := r.track_id, isrc := r.isrc, mbid := mbid,
    tempo := f.tempo,
    bpm_histogram_first_peak := f.bpm_histogram_first_peak,
    bpm_histogram_second_peak := f.bpm_histogram_second_peak,
    danceability := f.danceability, onset_rate := f.onset_rate,
    loudness_mean := f.loudness_mean,
    dynamic_complexity := f.dynamic_complexity,
    key_key := f.key_key, key_scale := f.key_scale,
    loaded_at := loadedAt, raw_json := f.raw_json }

/-- The candidate loop (lines 226-266): for each `(mbid, title, artist)` in
order, fetch AcousticBrainz features.  On success, store the feature row,
store the success mapping row, and `break` (so no `time.sleep(1)` runs for
the successful fetch).  On `None`, `time.sleep(1)` and continue.  Returns
(store, events, found_features). -/
def fetchCandidates (ab : Option String → ABResponse) (loadedAt : Nat)
    (r : SourceRecord) : Store → List Candidate → Store × List Ev × Bool
  | s, [] => (s, [], false)
  | s, c :: rest =>
    match fetch_acousticbrainz_features (ab c.mbid) with
    | some feats =>
        let s1 := insertOrReplaceFeature s (featureRow r c.mbid feats loadedAt)
        let s2 := insertOrReplaceMapping s1
          (mappingRow r c.mbid "success" loadedAt)
        (s2, [Ev.callAB c.mbid], true)
    | none =>
        let res := fetchCandidates ab loadedAt r s rest
        (res.1, Ev.callAB c.mbid :: Ev.sleep 10 :: res.2.1, res.2.2)

/-- The body of the per-track loop (lines 189-280) for one record: skip if
the isrc already has a mapping row; otherwise call the resolver; on error
persist status `error` and sleep; on an empty candidate list persist
`not_found` and sleep; otherwise run the candidate loop, persist
`no_ab_data` with the first candidate's mbid if nothing was found, and
execute the record-final `time.sleep(1.5)`. -/
def processRecord (mb : String → MBResponse) (ab : Option String → ABResponse)
    (loadedAt : Nat) (s : Store) (r : SourceRecord) : Store × List Ev :=
  match findMapping s r.isrc with
  | some _ => (s, [])
  | none =>
    match lookup_isrc_in_musicbrainz (mb r.isrc) with
    | none =>
        (insertOrReplaceMapping s (mappingRow r none "error" loadedAt),
         [Ev.callMB r.isrc, Ev.sleep 10])
    | some mbidResults =>
        if mbidResults.length = 0 then
          (insertOrReplaceMapping s (mappingRow r none "not_found" loadedAt),
           [Ev.callMB r.isrc, Ev.sleep 10])
        else
          let res := fetchCandidates ab loadedAt r s mbidResults
          let s2 :=
            if res.2.2 then res.1
            else
              insertOrReplaceMapping res.1
                (mappingRow r
                  (match mbidResults.head? with
                   | some c => c.mbid
                   | none => none)
                  "no_ab_data" loadedAt)
          (s2, Ev.callMB r.isrc :: res.2.1 ++ [Ev.sleep 15])

/-- The whole per-track loop over the `tracks_with_isrc` result set, in
order, threading the store and concatenating event traces. -/
def runEnrich (mb : String → MBResponse) (ab : Option String → ABResponse)
    (loadedAt : Nat) : Store → List SourceRecord → Store × List Ev
  | s, [] => (s, [])
  | s, r :: rs =>
    let res := processRecord mb ab loadedAt s r
    let res2 := runEnrich mb ab loadedAt res.1 rs
    (res2.1, res.2 ++ res2.2)

/-! ### Trace measures

Counting functions over the event trace, used to state the pacing
properties.  The minimum pacing interval of the script is `time.sleep(1)`,
i.e. 10 tenths of a second. -/

/-- Whether an event is an outbound network call. -/
def isCall : Ev → Bool
  | Ev.sleep _ => false
  | _ => true

/-- Number of outbound network calls in a trace. -/
def countCalls : List Ev → Nat
  | [] => 0
  | e :: t => (if isCall e then 1 else 0) + countCalls t

/-- Total slept time (tenths of a second) in a trace. -/
def totalSleepTenths : List Ev → Nat
  | [] => 0
  | Ev.sleep d :: t => d + totalSleepTenths t
  | _ :: t => totalSleepTenths t

/-- `true` iff every outbound call is followed by at least one sleep before
the next outbound call is issued (no two calls are adjacent in the trace). -/
def pacedTrace : List Ev → Bool
  | a :: b :: t => !(isCall a && isCall b) && pacedTrace (b :: t)
  | _ => true

/-- Number of adjacent event pairs of a trace satisfying `p`. -/
def pairCount (p : Ev → Ev → Bool) : List Ev → Nat
  | a :: b :: t => (if p a b then 1 else 0) + pairCount p (b :: t)
  | _ => 0

/-- Number of adjacent call-call pairs in a trace (places where one external
call is issued with no sleep after the previous one). -/
def unpacedPairs (tr : List Ev) : Nat :=
  pairCount (fun a b => isCall a && isCall b) tr

/-- Whether an adjacent event pair is a resolver call immediately followed
by a fetcher call. -/
def isMBthenAB : Ev → Ev → Bool
  | Ev.callMB _, Ev.callAB _ => true
  | _, _ => false

/-- Number of adjacent call-call pairs that are NOT a resolver call followed
by a fetcher call. -/
def badAdjacentPairs (tr : List Ev) : Nat :=
  pairCount (fun a b => isCall a && isCall b && !(isMBthenAB a b)) tr

/-- A trace that is empty or ends with a sleep. -/
def endsSleepOrNil (tr : List Ev) : Prop :=
  tr = [] ∨ ∃ d, tr.getLast? = some (Ev.sleep d)

/-! ### Exception model

The per-track loop body (lines 189-280) is not wrapped in a `try`/`except`:
only the feature-storing block (lines 233-264) is.  The two helper
functions catch every exception internally (returning `None`), so external
calls never raise into the loop; but a database exception raised by one of
the `INSERT OR REPLACE` statements on the mapping table outside the `try`
block (lines 209, 218, 270) propagates and aborts the whole script.  The
model below makes store writes fallible to capture this. -/

/-- Which store writes raise an exception, as a function of the row
written. -/
structure StoreBehavior where
  mappingWriteFails : MappingRow → Bool
  featureWriteFails : FeatureRow → Bool

/-- The store behavior in which no write ever raises. -/
def noFailBehavior : StoreBehavior :=
  { mappingWriteFails := fun _ => false, featureWriteFails := fun _ => false }

/-- The candidate loop under the exception model.  The `try` block covers
both the feature insert and the success mapping insert; an exception from
either is caught (line 263), `found_features` stays false, `time.sleep(1)`
runs, and the loop continues with the next candidate.  Note that when the
feature insert succeeded but the success mapping insert raised, the feature
row remains stored. -/
def fetchCandidatesExc (ab : Option String → ABResponse) (beh : StoreBehavior)
    (loadedAt : Nat) (r : SourceRecord) :
    Store → List Candidate → Store × List Ev × Bool
  | s, [] => (s, [], false)
  | s, c :: rest =>
    match fetch_acousticbrainz_features (ab c.mbid) with
    | some feats =>
        let frow := featureRow r c.mbid feats loadedAt
        if beh.featureWriteFails frow then
          let res := fetchCandidatesExc ab beh loadedAt r s rest
          (res.1, Ev.callAB c.mbid :: Ev.sleep 10 :: res.2.1, res.2.2)
        else
          let s1 := insertOrReplaceFeature s frow
          let mrow := mappingRow r c.mbid "success" loadedAt
          if beh.mappingWriteFails mrow then
            let res := fetchCandidatesExc ab beh loadedAt r s1 rest
            (res.1, Ev.callAB c.mbid :: Ev.sleep 10 :: res.2.1, res.2.2)
          else
            (insertOrReplaceMapping s1 mrow, [Ev.callAB c.mbid], true)
    | none =>
        let res := fetchCandidatesExc ab beh loadedAt r s rest
        (res.1, Ev.callAB c.mbid :: Ev.sleep 10 :: res.2.1, res.2.2)

/-- One record's processing under the exception model.  The mapping writes
for the `error`, `not_found` and `no_ab_data` outcomes are outside any
`try` block, so when one of them raises the exception propagates:
the result is `Except.error` carrying the events issued before the crash. -/
def processRecordExc (mb : String → MBResponse)
    (ab : Option String → ABResponse) (beh : StoreBehavior) (loadedAt : Nat)
    (s : Store) (r : SourceRecord) : Except (List Ev) (Store × List Ev) :=
  match findMapping s r.isrc with
  | some _ => Except.ok (s, [])
  | none =>
    match lookup_isrc_in_musicbrainz (mb r.isrc) with
    | none =>
        let row := mappingRow r none "error" loadedAt
        if beh.mappingWriteFails row then Except.error [Ev.callMB r.isrc]
        else
          Except.ok (insertOrReplaceMapping s row,
            [Ev.callMB r.isrc, Ev.sleep 10])
    | some mbidResults =>
        if mbidResults.length = 0 then
          let row := mappingRow r none "not_found" loadedAt
          if beh.mappingWriteFails row then Except.error [Ev.callMB r.isrc]
          else
            Except.ok (insertOrReplaceMapping s row,
              [Ev.callMB r.isrc, Ev.sleep 10])
        else
          let res := fetchCandidatesExc ab beh loadedAt r s mbidResults
          if res.2.2 then
            Except.ok (res.1, Ev.callMB r.isrc :: res.2.1 ++ [Ev.sleep 15])
          else
            let row := mappingRow r
              (match mbidResults.head? with
               | some c => c.mbid
               | none => none)
              "no_ab_data" loadedAt
            if beh.mappingWriteFails row then
              Except.error (Ev.callMB r.isrc :: res.2.1)
            else
              Except.ok (insertOrReplaceMapping res.1 row,
                Ev.callMB r.isrc :: res.2.1 ++ [Ev.sleep 15])

/-- The whole loop under the exception model: an uncaught exception while
processing one record aborts the run, leaving the remaining records
unprocessed. -/
def runEnrichExc (mb : String → MBResponse) (ab : Option String → ABResponse)
    (beh : StoreBehavior) (loadedAt : Nat) :
    Store → List SourceRecord → Except (List Ev) (Store × List Ev)
  | s, [] => Except.ok (s, [])
  | s, r :: rs =>
    match processRecordExc mb ab beh loadedAt s r with
    | Except.error evs => Except.error evs
    | Except.ok (s1, evs) =>
      match runEnrichExc mb ab beh loadedAt s1 rs with
      | Except.error evs2 => Except.error (evs ++ evs2)
      | Except.ok (s2, evs2) => Except.ok (s2, evs ++ evs2)

/-! ### Store invariants -/

/-- At most one resolution-outcome row per standardized code: for every
code, the mapping table holds at most one row whose isrc equals it. -/
def atMostOnePerCode (s : Store) : Prop :=
  ∀ code : String,
    (s.mapping.filter fun row => row.isrc == code).length ≤ 1

/-- Every outcome row with status `success` has a corresponding feature row
for its matched external id (spec: `ResolutionOutcome.matched_external_id →
FeatureRecord.external_id` when status is success). -/
def successHasFeature (s : Store) : Prop :=
  ∀ row ∈ s.mapping, row.lookup_status = "success" →
    ∃ fr ∈ s.featuresTab, fr.mbid = row.mbid

/-! ### Concrete scenarios

Small concrete instances of the model, used to evaluate the theorems on
explicit inputs. -/

/-- The worked example of the spec: one recording candidate `mbid-1`. -/
def recordingW : MBRecording :=
  { id := some "mbid-1", title := some "Track A",
    artistCredit := [{ name := some "Artist A" }] }

/-- A feature payload with tempo 128 and danceability 1.2. -/
def payloadW : ABPayload :=
  { rhythm := some
      { bpm := some 128, bpm_histogram_first_peak_bpm := none,
        bpm_histogram_second_peak_bpm := none, danceability := some 1,
        onset_rate := none },
    tonal := some { key_key := some "C#", key_scale := some "major" },
    lowlevel := none,
    rawText := "rawW" }

/-- The worked example's source record. -/
def trackW : SourceRecord :=
  { track_id := "t1", track_name := "Track A", artist_name := "Artist A",
    isrc := "JPU01700001" }

/-- MusicBrainz oracle for the worked example. -/
def mbW : String → MBResponse := fun i =>
  if i == "JPU01700001" then MBResponse.ok [recordingW] else MBResponse.notFound

/-- AcousticBrainz oracle for the worked example. -/
def abW : Option String → ABResponse := fun m =>
  if m == some "mbid-1" then ABResponse.ok payloadW else ABResponse.notFound

/-- A store that already holds an outcome row for the worked example's
ISRC. -/
def storeC1 : Store :=
  { mapping := [mappingRow trackW none "not_found" 0], featuresTab := [] }

/-- Three candidate recordings `A`, `B`, `C` for the first-match-wins
scenario. -/
def recordingA : MBRecording :=
  { id := some "mbid-A", title := some "TA", artistCredit := [] }

/-- Candidate `B` of the first-match-wins scenario. -/
def recordingB : MBRecording :=
  { id := some "mbid-B", title := some "TB", artistCredit := [] }

/-- Candidate `C` of the first-match-wins scenario. -/
def recordingC : MBRecording :=
  { id := some "mbid-C", title := some "TC", artistCredit := [] }

/-- A second source record, used in the multi-candidate scenarios. -/
def trackX : SourceRecord :=
  { track_id := "t2", track_name := "Track B", artist_name := "Artist B",
    isrc := "JPX02000002" }

/-- MusicBrainz oracle returning the three candidates `A`, `B`, `C`. -/
def mbABC : String → MBResponse := fun i =>
  if i == "JPX02000002" then MBResponse.ok [recordingA, recordingB, recordingC]
  else MBResponse.notFound

/-- AcousticBrainz oracle for which fetching `A` yields nothing and
fetching `B` or `C` yields features. -/
def abBsucceeds : Option String → ABResponse := fun m =>
  if m == some "mbid-A" then ABResponse.notFound
  else if m == some "mbid-B" then ABResponse.ok payloadW
  else if m == some "mbid-C" then ABResponse.ok payloadW
  else ABResponse.notFound

/-- AcousticBrainz oracle for which every fetch yields nothing. -/
def abAllAbsent : Option String → ABResponse := fun _ => ABResponse.notFound

/-- MusicBrainz oracle answering every lookup with a 503 status. -/
def mbAllError : String → MBResponse := fun _ => MBResponse.otherStatus 503

/-- MusicBrainz oracle answering every lookup with a 404. -/
def mbAllNotFound : String → MBResponse := fun _ => MBResponse.notFound

/-- A `bronze_tracks` row with a NULL isrc. -/
def rowNullIsrc : BronzeTrack :=
  { track_id := "t1", track_name := "Track A", artist_name := "Artist A",
    isrc := none, popularity := 90 }

/-- A `bronze_tracks` row with an empty isrc. -/
def rowEmptyIsrc : BronzeTrack :=
  { track_id := "t2", track_name := "Track B", artist_name := "Artist B",
    isrc := some "", popularity := 80 }

/-- A `bronze_tracks` row with a real isrc. -/
def rowGoodIsrc : BronzeTrack :=
  { track_id := "t3", track_name := "Track C", artist_name := "Artist C",
    isrc := some "JPU01700001", popularity := 70 }

/-- Upstream `bronze_tracks` rows with a NULL isrc, an empty isrc, and a
real isrc. -/
def bronzeRowsW : List BronzeTrack := [rowNullIsrc, rowEmptyIsrc, rowGoodIsrc]

/-- The candidate tuple the resolver builds from `recordingA`. -/
def candA : Candidate := { mbid := some "mbid-A", title := "TA", artist := "" }

/-- The candidate tuple the resolver builds from `recordingB`. -/
def candB : Candidate := { mbid := some "mbid-B", title := "TB", artist := "" }

/-- The candidate tuple the resolver builds from `recordingC`. -/
def candC : Candidate := { mbid := some "mbid-C", title := "TC", artist := "" }

/-- The features dict extracted from `payloadW`. -/
def featuresW : Features :=
  { tempo := 128, bpm_histogram_first_peak := 0,
    bpm_histogram_second_peak := 0, danceability := 1, onset_rate := 0,
    loudness_mean := 0, dynamic_complexity := 0, key_key := "C#",
    key_scale := "major", raw_json := "rawW" }

/-- Store behavior in which every database write raises. -/
def behAllFail : StoreBehavior :=
  { mappingWriteFails := fun _ => true, featureWriteFails := fun _ => true }

/-- Store behavior in which feature-table writes and success-row writes
raise, but the outcome writes outside the `try` block do not. -/
def behFeatFail : StoreBehavior :=
  { mappingWriteFails := fun row => row.lookup_status == "success",
    featureWriteFails := fun _ => true }

/-! ### Helper lemmas -/

theorem findMapping_insert_self (s : Store) (row : MappingRow) :
    findMapping (insertOrReplaceMapping s row) row.isrc = some row := by
  simp [findMapping, insertOrReplaceMapping]

theorem findMapping_insert_isSome (s : Store) (row : MappingRow) (i : String)
    (h : (findMapping s i).isSome) :
    (findMapping (insertOrReplaceMapping s row) i).isSome := by
  by_cases hi : i = row.isrc
  · subst hi
    simp [findMapping_insert_self]
  · unfold findMapping at h ⊢
    rw [List.find?_isSome] at h ⊢
    obtain ⟨x, hx, hpx⟩ := h
    have hxi : x.isrc = i := by simpa using hpx
    refine ⟨x, ?_, hpx⟩
    simp [insertOrReplaceMapping, List.mem_filter, hx, hxi, hi]

theorem findMapping_insertFeature (s : Store) (fr : FeatureRow) (i : String) :
    findMapping (insertOrReplaceFeature s fr) i = findMapping s i := rfl

theorem fetchCandidates_not_found_store (ab : Option String → ABResponse)
    (la : Nat) (r : SourceRecord) :
    ∀ (cs : List Candidate) (s : Store),
      (fetchCandidates ab la r s cs).2.2 = false →
      (fetchCandidates ab la r s cs).1 = s := by
  intro cs
  induction cs with
  | nil => intro s _; rfl
  | cons c rest ih =>
    intro s h
    rw [fetchCandidates] at h ⊢
    cases hf : fetch_acousticbrainz_features (ab c.mbid) with
    | some feats => simp [hf] at h
    | none =>
      simp only [hf] at h ⊢
      exact ih s h

theorem fetchCandidates_found_isSome (ab : Option String → ABResponse)
    (la : Nat) (r : SourceRecord) :
    ∀ (cs : List Candidate) (s : Store),
      (fetchCandidates ab la r s cs).2.2 = true →
      (findMapping (fetchCandidates ab la r s cs).1 r.isrc).isSome := by
  intro cs
  induction cs with
  | nil => intro s h; simp [fetchCandidates] at h
  | cons c rest ih =>
    intro s h
    rw [fetchCandidates] at h ⊢
    cases hf : fetch_acousticbrainz_features (ab c.mbid) with
    | some feats =>
      simp only [hf]
      have : (mappingRow r c.mbid "success" la).isrc = r.isrc := rfl
      rw [← this]
      simp [findMapping_insert_self]
    | none =>
      simp only [hf] at h ⊢
      exact ih s h

theorem fetchCandidates_preserves_isSome (ab : Option String → ABResponse)
    (la : Nat) (r : SourceRecord) :
    ∀ (cs : List Candidate) (s : Store) (i : String),
      (findMapping s i).isSome →
      (findMapping (fetchCandidates ab la r s cs).1 i).isSome := by
  intro cs
  induction cs with
  | nil => intro s i h; simpa [fetchCandidates]
  | cons c rest ih =>
    intro s i h
    rw [fetchCandidates]
    cases hf : fetch_acousticbrainz_features (ab c.mbid) with
    | some feats =>
      simp only [hf]
      exact findMapping_insert_isSome _ _ _ h
    | none =>
      simp only [hf]
      exact ih s i h

theorem processRecord_covers (mb : String → MBResponse)
    (ab : Option String → ABResponse) (la : Nat) (s : Store)
    (r : SourceRecord) :
    (findMapping (processRecord mb ab la s r).1 r.isrc).isSome := by
  unfold processRecord
  cases hm : findMapping s r.isrc with
  | some row => simp [hm]
  | none =>
    cases hl : lookup_isrc_in_musicbrainz (mb r.isrc) with
    | none =>
      have : (mappingRow r none "error" la).isrc = r.isrc := rfl
      simp only []
      rw [← this]
      simp [findMapping_insert_self]
    | some results =>
      by_cases hlen : results.length = 0
      · simp only [hlen, if_true]
        have : (mappingRow r none "not_found" la).isrc = r.isrc := rfl
        rw [← this]
        simp [findMapping_insert_self]
      · simp only [hlen, if_false]
        cases hfound : (fetchCandidates ab la r s results).2.2 with
        | true =>
          simp only [hfound, if_true]
          exact fetchCandidates_found_isSome ab la r results s hfound
        | false =>
          simp only [hfound, Bool.false_eq_true, if_false]
          have : (mappingRow r
              (match results.head? with
               | some c => c.mbid
               | none => none) "no_ab_data" la).isrc = r.isrc := rfl
          rw [← this]
          simp [findMapping_insert_self]

theorem processRecord_preserves_isSome (mb : String → MBResponse)
    (ab : Option String → ABResponse) (la : Nat) (s : Store)
    (r : SourceRecord) (i : String) (h : (findMapping s i).isSome) :
    (findMapping (processRecord mb ab la s r).1 i).isSome := by
  unfold processRecord
  cases hm : findMapping s r.isrc with
  | some row => simpa [hm]
  | none =>
    cases hl : lookup_isrc_in_musicbrainz (mb r.isrc) with
    | none => exact findMapping_insert_isSome _ _ _ h
    | some results =>
      by_cases hlen : results.length = 0
      · simp only [hlen, if_true]
        exact findMapping_insert_isSome _ _ _ h
      · simp only [hlen, if_false]
        cases hfound : (fetchCandidates ab la r s results).2.2 with
        | true =>
          simp only [hfound, if_true]
          exact fetchCandidates_preserves_isSome ab la r results s i h
        | false =>
          simp only [hfound, Bool.false_eq_true, if_false]
          exact findMapping_insert_isSome _ _ _
            (fetchCandidates_preserves_isSome ab la r results s i h)

theorem runEnrich_preserves_isSome (mb : String → MBResponse)
    (ab : Option String → ABResponse) (la : Nat) :
    ∀ (recs : List SourceRecord) (s : Store) (i : String),
      (findMapping s i).isSome →
      (findMapping (runEnrich mb ab la s recs).1 i).isSome := by
  intro recs
  induction recs with
  | nil => intro s i h; simpa [runEnrich]
  | cons r rs ih =>
    intro s i h
    rw [runEnrich]
    exact ih _ _ (processRecord_preserves_isSome mb ab la s r i h)

theorem runEnrich_covers (mb : String → MBResponse)
    (ab : Option String → ABResponse) (la : Nat) :
    ∀ (recs : List SourceRecord) (s : Store) (r : SourceRecord),
      r ∈ recs →
      (findMapping (runEnrich mb ab la s recs).1 r.isrc).isSome := by
  intro recs
  induction recs with
  | nil => intro s r hr; simp at hr
  | cons r' rs ih =>
    intro s r hr
    rw [runEnrich]
    rcases List.mem_cons.mp hr with h | h
    · subst h
      exact runEnrich_preserves_isSome mb ab la rs _ _
        (processRecord_covers mb ab la s r)
    · exact ih _ r h

theorem runEnrich_skip_all (mb : String → MBResponse)
    (ab : Option String → ABResponse) (la : Nat) :
    ∀ (recs : List SourceRecord) (s : Store),
      (∀ r ∈ recs, (findMapping s r.isrc).isSome) →
      runEnrich mb ab la s recs = (s, []) := by
  intro recs
  induction recs with
  | nil => intro s _; rfl
  | cons r rs ih =>
    intro s h
    have h1 := h r (List.mem_cons_self r rs)
    obtain ⟨row, hrow⟩ := Option.isSome_iff_exists.mp h1
    have hpr : processRecord mb ab la s r = (s, []) := by
      unfold processRecord
      simp [hrow]
    rw [runEnrich, hpr]
    simp [ih s fun x hx => h x (List.mem_cons_of_mem r hx)]

/-! ### Claim theorems -/

/-- C1: if every record's standardized code already has a persisted
resolution outcome row (any status), a run of the Orchestrator issues zero
external calls and leaves both staging tables unchanged; and the run over
the store produced by any first run is a no-op (the first run leaves every
code with an outcome row). -/
theorem orchestrator_idempotent (mb : String → MBResponse)
    (ab : Option String → ABResponse) (la : Nat) (s : Store)
    (recs : List SourceRecord) :
    ((∀ r ∈ recs, (findMapping s r.isrc).isSome) →
      runEnrich mb ab la s recs = (s, [])) ∧
    runEnrich mb ab la (runEnrich mb ab la s recs).1 recs
      = ((runEnrich mb ab la s recs).1, []) := by
  constructor
  · exact runEnrich_skip_all mb ab la recs s
  · exact runEnrich_skip_all mb ab la recs _
      (fun r hr => runEnrich_covers mb ab la recs s r hr)

/-- Witness for C1: with a store already holding an outcome row for the
record's code, the run changes nothing and issues no calls. -/
theorem orchestrator_idempotent_witness :
    runEnrich mbW abW 0 storeC1 [trackW] = (storeC1, []) :=
  (orchestrator_idempotent mbW abW 0 storeC1 [trackW]).1 (by decide)

theorem fetchCandidates_all_absent (ab : Option String → ABResponse)
    (la : Nat) (r : SourceRecord) :
    ∀ (cs : List Candidate) (s : Store),
      (∀ c ∈ cs, fetch_acousticbrainz_features (ab c.mbid) = none) →
      fetchCandidates ab la r s cs =
        (s, (cs.map fun c => [Ev.callAB c.mbid, Ev.sleep 10]).flatten, false) := by
  intro cs
  induction cs with
  | nil => intro s _; rfl
  | cons c rest ih =>
    intro s h
    have hc := h c (List.mem_cons_self c rest)
    rw [fetchCandidates, hc, ih s fun x hx => h x (List.mem_cons_of_mem c hx)]
    simp

theorem fetchCandidates_first_success (ab : Option String → ABResponse)
    (la : Nat) (r : SourceRecord) (c : Candidate) (rest : List Candidate)
    (f : Features) (hc : fetch_acousticbrainz_features (ab c.mbid) = some f) :
    ∀ (pre : List Candidate) (s : Store),
      (∀ x ∈ pre, fetch_acousticbrainz_features (ab x.mbid) = none) →
      fetchCandidates ab la r s (pre ++ c :: rest) =
        (insertOrReplaceMapping
           (insertOrReplaceFeature s (featureRow r c.mbid f la))
           (mappingRow r c.mbid "success" la),
         (pre.map fun x => [Ev.callAB x.mbid, Ev.sleep 10]).flatten
           ++ [Ev.callAB c.mbid],
         true) := by
  intro pre
  induction pre with
  | nil =>
    intro s _
    rw [List.nil_append, fetchCandidates, hc]
    simp
  | cons x pre' ih =>
    intro s h
    have hx := h x (List.mem_cons_self x pre')
    rw [List.cons_append, fetchCandidates, hx,
      ih s fun y hy => h y (List.mem_cons_of_mem x hy)]
    simp

theorem filter_isrc_insert (s : Store) (row : MappingRow)
    (hnew : findMapping s row.isrc = none) :
    ((insertOrReplaceMapping s row).mapping.filter
      fun x => x.isrc == row.isrc) = [row] := by
  unfold findMapping at hnew
  have hall := List.find?_eq_none.mp hnew
  unfold insertOrReplaceMapping
  simp only [List.filter_cons, beq_self_eq_true, if_true]
  have : (s.mapping.filter fun x => !(x.isrc == row.isrc)).filter
      (fun x => x.isrc == row.isrc) = [] := by
    rw [List.filter_eq_nil_iff]
    intro x hx
    exact hall x (List.mem_filter.mp hx).1
  rw [this]

/-- C2: when the resolver returns candidates `pre ++ c :: rest` where every
fetch on `pre` yields nothing and the fetch on `c` yields features `f`, the
Orchestrator calls the fetcher on `pre` in list order and then on `c`, and
on no later candidate; it persists the FeatureRecord for `c` and a
resolution outcome with status `success` and `c`'s external id. -/
theorem first_match_wins (mb : String → MBResponse)
    (ab : Option String → ABResponse) (la : Nat) (s : Store)
    (r : SourceRecord) (pre : List Candidate) (c : Candidate)
    (rest : List Candidate) (f : Features)
    (hnew : findMapping s r.isrc = none)
    (hres : lookup_isrc_in_musicbrainz (mb r.isrc) = some (pre ++ c :: rest))
    (hpre : ∀ x ∈ pre, fetch_acousticbrainz_features (ab x.mbid) = none)
    (hc : fetch_acousticbrainz_features (ab c.mbid) = some f) :
    processRecord mb ab la s r =
      (insertOrReplaceMapping
         (insertOrReplaceFeature s (featureRow r c.mbid f la))
         (mappingRow r c.mbid "success" la),
       Ev.callMB r.isrc ::
         ((pre.map fun x => [Ev.callAB x.mbid, Ev.sleep 10]).flatten
           ++ [Ev.callAB c.mbid]) ++ [Ev.sleep 15]) := by
  unfold processRecord
  rw [hnew, hres]
  have hlen : ¬((pre ++ c :: rest).length = 0) := by simp
  dsimp only
  rw [if_neg hlen]
  rw [fetchCandidates_first_success ab la r c rest f hc pre s hpre]
  simp

/-- Witness for C2: with candidates `[A, B, C]` where fetching `A` yields
nothing and fetching `B` succeeds, the persisted external id is `B`'s and
`C` is never fetched. -/
theorem first_match_wins_witness :
    processRecord mbABC abBsucceeds 0 emptyStore trackX =
      (insertOrReplaceMapping
         (insertOrReplaceFeature emptyStore
           (featureRow trackX (some "mbid-B") featuresW 0))
         (mappingRow trackX (some "mbid-B") "success" 0),
       Ev.callMB trackX.isrc ::
         (([candA].map fun x => [Ev.callAB x.mbid, Ev.sleep 10]).flatten
           ++ [Ev.callAB candB.mbid]) ++ [Ev.sleep 15]) :=
  first_match_wins mbABC abBsucceeds 0 emptyStore trackX [candA] candB [candC]
    featuresW rfl (by decide) (by decide) (by decide)

/-- C3: when the resolver returns candidates `c0 :: cs` and every fetch
yields nothing, the Orchestrator persists exactly one resolution outcome
for the code, with status `no_ab_data` (the script's name for the spec's
`no_feature_data`) and the first candidate's external id, and persists no
FeatureRecord. -/
theorem exhaustion_no_feature_data (mb : String → MBResponse)
    (ab : Option String → ABResponse) (la : Nat) (s : Store)
    (r : SourceRecord) (c0 : Candidate) (cs : List Candidate)
    (hnew : findMapping s r.isrc = none)
    (hres : lookup_isrc_in_musicbrainz (mb r.isrc) = some (c0 :: cs))
    (habs : ∀ c ∈ c0 :: cs,
      fetch_acousticbrainz_features (ab c.mbid) = none) :
    processRecord mb ab la s r =
      (insertOrReplaceMapping s (mappingRow r c0.mbid "no_ab_data" la),
       Ev.callMB r.isrc ::
         ((c0 :: cs).map fun c => [Ev.callAB c.mbid, Ev.sleep 10]).flatten
         ++ [Ev.sleep 15]) ∧
    ((processRecord mb ab la s r).1.mapping.filter
      fun row => row.isrc == r.isrc) =
        [mappingRow r c0.mbid "no_ab_data" la] ∧
    (processRecord mb ab la s r).1.featuresTab = s.featuresTab := by
  have hmain : processRecord mb ab la s r =
      (insertOrReplaceMapping s (mappingRow r c0.mbid "no_ab_data" la),
       Ev.callMB r.isrc ::
         ((c0 :: cs).map fun c => [Ev.callAB c.mbid, Ev.sleep 10]).flatten
         ++ [Ev.sleep 15]) := by
    unfold processRecord
    rw [hnew, hres]
    have hlen : ¬((c0 :: cs).length = 0) := by simp
    dsimp only
    rw [if_neg hlen]
    rw [fetchCandidates_all_absent ab la r (c0 :: cs) s habs]
    simp
  refine ⟨hmain, ?_, ?_⟩
  · rw [hmain]
    exact filter_isrc_insert s (mappingRow r c0.mbid "no_ab_data" la) hnew
  · rw [hmain]
    rfl

/-- Witness for C3: candidates `[A, B]`, both fetches absent: the outcome is
`no_ab_data` with `A`'s external id. -/
theorem exhaustion_no_feature_data_witness :
    processRecord mbABC abAllAbsent 0 emptyStore trackX =
      (insertOrReplaceMapping emptyStore
        (mappingRow trackX candA.mbid "no_ab_data" 0),
       Ev.callMB trackX.isrc ::
         ([candA, candB, candC].map
           fun c => [Ev.callAB c.mbid, Ev.sleep 10]).flatten
         ++ [Ev.sleep 15]) :=
  (exhaustion_no_feature_data mbABC abAllAbsent 0 emptyStore trackX candA
    [candB, candC] rfl (by decide) (by decide)).1

/-- C6: when the resolver reports an error the Orchestrator persists a
resolution outcome with status `error` and no matched external id; when it
reports not-found it persists status `not_found`, likewise with no external
id; in both cases the trace holds the single resolver call and a sleep —
zero fetcher calls. -/
theorem notfound_error_short_circuit (mb : String → MBResponse)
    (ab : Option String → ABResponse) (la : Nat) (s : Store)
    (r : SourceRecord) (hnew : findMapping s r.isrc = none) :
    (lookup_isrc_in_musicbrainz (mb r.isrc) = none →
      processRecord mb ab la s r =
        (insertOrReplaceMapping s (mappingRow r none "error" la),
         [Ev.callMB r.isrc, Ev.sleep 10])) ∧
    (lookup_isrc_in_musicbrainz (mb r.isrc) = some [] →
      processRecord mb ab la s r =
        (insertOrReplaceMapping s (mappingRow r none "not_found" la),
         [Ev.callMB r.isrc, Ev.sleep 10])) := by
  constructor
  · intro hl
    unfold processRecord
    rw [hnew, hl]
  · intro hl
    unfold processRecord
    rw [hnew, hl]
    simp

/-- Witness for C6: a 503-answering resolver yields an `error` row, a
404-answering resolver a `not_found` row, both with no fetcher calls. -/
theorem notfound_error_short_circuit_witness :
    processRecord mbAllError abW 0 emptyStore trackW =
      (insertOrReplaceMapping emptyStore (mappingRow trackW none "error" 0),
       [Ev.callMB trackW.isrc, Ev.sleep 10]) ∧
    processRecord mbAllNotFound abW 0 emptyStore trackW =
      (insertOrReplaceMapping emptyStore
        (mappingRow trackW none "not_found" 0),
       [Ev.callMB trackW.isrc, Ev.sleep 10]) :=
  ⟨(notfound_error_short_circuit mbAllError abW 0 emptyStore trackW rfl).1 rfl,
   (notfound_error_short_circuit mbAllNotFound abW 0 emptyStore trackW
     rfl).2 rfl⟩

theorem mem_insertOrReplaceMapping {s : Store} {x row : MappingRow}
    (h : row ∈ (insertOrReplaceMapping s x).mapping) :
    row = x ∨ row ∈ s.mapping := by
  rcases List.mem_cons.mp h with h1 | h1
  · exact Or.inl h1
  · exact Or.inr (List.mem_filter.mp h1).1

theorem mem_insertOrReplaceFeature {s : Store} {x fr : FeatureRow}
    (h : fr ∈ (insertOrReplaceFeature s x).featuresTab) :
    fr = x ∨ fr ∈ s.featuresTab := by
  rcases List.mem_cons.mp h with h1 | h1
  · exact Or.inl h1
  · exact Or.inr (List.mem_filter.mp h1).1

theorem fetchCandidates_provenance (ab : Option String → ABResponse)
    (la : Nat) (r : SourceRecord) :
    ∀ (cs : List Candidate) (s : Store),
      (∀ row ∈ (fetchCandidates ab la r s cs).1.mapping,
        row ∈ s.mapping ∨ row.isrc = r.isrc) ∧
      (∀ fr ∈ (fetchCandidates ab la r s cs).1.featuresTab,
        fr ∈ s.featuresTab ∨ fr.isrc = r.isrc) := by
  intro cs
  induction cs with
  | nil => intro s; exact ⟨fun row h => Or.inl h, fun fr h => Or.inl h⟩
  | cons c rest ih =>
    intro s
    rw [fetchCandidates]
    cases hf : fetch_acousticbrainz_features (ab c.mbid) with
    | some feats =>
      dsimp only
      constructor
      · intro row h
        rcases mem_insertOrReplaceMapping h with h1 | h1
        · right; rw [h1]; rfl
        · exact Or.inl h1
      · intro fr h
        rcases mem_insertOrReplaceFeature h with h1 | h1
        · right; rw [h1]; rfl
        · exact Or.inl h1
    | none =>
      dsimp only
      exact ih s

theorem fetchCandidates_trace_noMB (ab : Option String → ABResponse)
    (la : Nat) (r : SourceRecord) :
    ∀ (cs : List Candidate) (s : Store) (i : String),
      Ev.callMB i ∉ (fetchCandidates ab la r s cs).2.1 := by
  intro cs
  induction cs with
  | nil => intro s i h; simp [fetchCandidates] at h
  | cons c rest ih =>
    intro s i h
    rw [fetchCandidates] at h
    cases hf : fetch_acousticbrainz_features (ab c.mbid) with
    | some feats => rw [hf] at h; simp at h
    | none =>
      rw [hf] at h
      simp only [List.mem_cons] at h
      rcases h with h | h | h
      · exact Ev.noConfusion h
      · exact Ev.noConfusion h
      · exact ih s i h

theorem processRecord_provenance (mb : String → MBResponse)
    (ab : Option String → ABResponse) (la : Nat) (s : Store)
    (r : SourceRecord) :
    (∀ i, Ev.callMB i ∈ (processRecord mb ab la s r).2 → i = r.isrc) ∧
    (∀ row ∈ (processRecord mb ab la s r).1.mapping,
      row ∈ s.mapping ∨ row.isrc = r.isrc) ∧
    (∀ fr ∈ (processRecord mb ab la s r).1.featuresTab,
      fr ∈ s.featuresTab ∨ fr.isrc = r.isrc) := by
  unfold processRecord
  cases hm : findMapping s r.isrc with
  | some row =>
    dsimp only
    exact ⟨fun i h => absurd h (by simp),
      fun row h => Or.inl h, fun fr h => Or.inl h⟩
  | none =>
    cases hl : lookup_isrc_in_musicbrainz (mb r.isrc) with
    | none =>
      dsimp only
      refine ⟨fun i h => ?_, fun row h => ?_, fun fr h => Or.inl h⟩
      · simp only [List.mem_cons] at h
        rcases h with h | h | h
        · exact Ev.callMB.inj h
        · exact absurd h (by simp)
        · exact absurd h (by simp)
      · rcases mem_insertOrReplaceMapping h with h1 | h1
        · right; rw [h1]; rfl
        · exact Or.inl h1
    | some results =>
      dsimp only
      by_cases hlen : results.length = 0
      · rw [if_pos hlen]
        refine ⟨fun i h => ?_, fun row h => ?_, fun fr h => Or.inl h⟩
        · simp only [List.mem_cons] at h
          rcases h with h | h | h
          · exact Ev.callMB.inj h
          · exact absurd h (by simp)
          · exact absurd h (by simp)
        · rcases mem_insertOrReplaceMapping h with h1 | h1
          · right; rw [h1]; rfl
          · exact Or.inl h1
      · rw [if_neg hlen]
        dsimp only
        have hprov := fetchCandidates_provenance ab la r results s
        refine ⟨fun i h => ?_, fun row h => ?_, fun fr h => ?_⟩
        · rcases List.mem_cons.mp h with h | h
          · exact Ev.callMB.inj h
          · rcases List.mem_append.mp h with h | h
            · exact absurd h (fetchCandidates_trace_noMB ab la r results s i)
            · simp at h
        · cases hfound : (fetchCandidates ab la r s results).2.2 with
          | true =>
            rw [if_pos (by simp [hfound])] at h
            exact hprov.1 row h
          | false =>
            rw [if_neg (by simp [hfound])] at h
            rcases mem_insertOrReplaceMapping h with h1 | h1
            · right; rw [h1]; rfl
            · exact hprov.1 row h1
        · cases hfound : (fetchCandidates ab la r s results).2.2 with
          | true =>
            rw [if_pos (by simp [hfound])] at h
            exact hprov.2 fr h
          | false =>
            rw [if_neg (by simp [hfound])] at h
            exact hprov.2 fr h

theorem runEnrich_provenance (mb : String → MBResponse)
    (ab : Option String → ABResponse) (la : Nat) :
    ∀ (recs : List SourceRecord) (s : Store),
      (∀ i, Ev.callMB i ∈ (runEnrich mb ab la s recs).2 →
        i ∈ recs.map SourceRecord.isrc) ∧
      (∀ row ∈ (runEnrich mb ab la s recs).1.mapping,
        row ∈ s.mapping ∨ row.isrc ∈ recs.map SourceRecord.isrc) ∧
      (∀ fr ∈ (runEnrich mb ab la s recs).1.featuresTab,
        fr ∈ s.featuresTab ∨ fr.isrc ∈ recs.map SourceRecord.isrc) := by
  intro recs
  induction recs with
  | nil =>
    intro s
    exact ⟨fun i h => absurd h (by simp [runEnrich]),
      fun row h => Or.inl h, fun fr h => Or.inl h⟩
  | cons r rs ih =>
    intro s
    rw [runEnrich]
    have hp := processRecord_provenance mb ab la s r
    have hi := ih (processRecord mb ab la s r).1
    refine ⟨fun i h => ?_, fun row h => ?_, fun fr h => ?_⟩
    · rcases List.mem_append.mp h with h1 | h1
      · simp [hp.1 i h1]
      · simpa using Or.inr (by simpa using hi.1 i h1)
    · rcases hi.2.1 row h with h1 | h1
      · rcases hp.2.1 row h1 with h2 | h2
        · exact Or.inl h2
        · right; simp [h2]
      · right; simpa using Or.inr (by simpa using h1)
    · rcases hi.2.2 fr h with h1 | h1
      · rcases hp.2.2 fr h1 with h2 | h2
        · exact Or.inl h2
        · right; simp [h2]
      · right; simpa using Or.inr (by simpa using h1)

/-- C7: a `bronze_tracks` row whose isrc is NULL or empty fails the
`tracks_with_isrc` filter, so it is excluded before processing begins;
every processed record has a non-empty code, every resolver call of a run
uses a non-empty code, and every staging-table row created by a run carries
a non-empty code. -/
theorem empty_code_skip (rows : List BronzeTrack) (t : BronzeTrack)
    (mb : String → MBResponse) (ab : Option String → ABResponse) (la : Nat)
    (s : Store) (ht : t.isrc = none ∨ t.isrc = some "") :
    hasIsrc t = false ∧
    t ∉ rows.filter hasIsrc ∧
    (∀ r ∈ tracksWithIsrc rows, r.isrc ≠ "") ∧
    (∀ i, Ev.callMB i ∈ (runEnrich mb ab la s (tracksWithIsrc rows)).2 →
      i ≠ "") ∧
    (∀ row ∈ (runEnrich mb ab la s (tracksWithIsrc rows)).1.mapping,
      row ∈ s.mapping ∨ row.isrc ≠ "") ∧
    (∀ fr ∈ (runEnrich mb ab la s (tracksWithIsrc rows)).1.featuresTab,
      fr ∈ s.featuresTab ∨ fr.isrc ≠ "") := by
  have hfalse : hasIsrc t = false := by
    rcases ht with h | h <;> simp [hasIsrc, h]
  have hmembers : ∀ r ∈ tracksWithIsrc rows, r.isrc ≠ "" := by
    intro r hr
    unfold tracksWithIsrc at hr
    rcases List.mem_map.mp hr with ⟨u, hu, hru⟩
    have hu2 : hasIsrc u = true := (List.mem_filter.mp hu).2
    unfold hasIsrc at hu2
    cases hiu : u.isrc with
    | none => rw [hiu] at hu2; simp at hu2
    | some v =>
      rw [hiu] at hu2
      have hv : v ≠ "" := by
        intro hv
        rw [hv] at hu2
        simp at hu2
      rw [← hru]
      simpa [hiu] using hv
  have hprov := runEnrich_provenance mb ab la (tracksWithIsrc rows) s
  refine ⟨hfalse, ?_, hmembers, ?_, ?_, ?_⟩
  · intro hmem
    rw [List.mem_filter, hfalse] at hmem
    exact absurd hmem.2 (by simp)
  · intro i hi
    rcases List.mem_map.mp (hprov.1 i hi) with ⟨r, hr, hri⟩
    rw [← hri]
    exact hmembers r hr
  · intro row hrow
    rcases hprov.2.1 row hrow with h | h
    · exact Or.inl h
    · rcases List.mem_map.mp h with ⟨r, hr, hri⟩
      right; rw [← hri]; exact hmembers r hr
  · intro fr hfr
    rcases hprov.2.2 fr hfr with h | h
    · exact Or.inl h
    · rcases List.mem_map.mp h with ⟨r, hr, hri⟩
      right; rw [← hri]; exact hmembers r hr

/-- Witness for C7 at the concrete `bronze_tracks` rows with a NULL isrc
and an empty isrc. -/
theorem empty_code_skip_witness :
    hasIsrc rowNullIsrc = false ∧
    rowNullIsrc ∉ bronzeRowsW.filter hasIsrc ∧
    (∀ r ∈ tracksWithIsrc bronzeRowsW, r.isrc ≠ "") ∧
    (∀ i, Ev.callMB i ∈
      (runEnrich mbW abW 0 emptyStore (tracksWithIsrc bronzeRowsW)).2 →
        i ≠ "") ∧
    (∀ row ∈
      (runEnrich mbW abW 0 emptyStore (tracksWithIsrc bronzeRowsW)).1.mapping,
        row ∈ emptyStore.mapping ∨ row.isrc ≠ "") ∧
    (∀ fr ∈
      (runEnrich mbW abW 0 emptyStore
        (tracksWithIsrc bronzeRowsW)).1.featuresTab,
        fr ∈ emptyStore.featuresTab ∨ fr.isrc ≠ "") :=
  empty_code_skip bronzeRowsW rowNullIsrc mbW abW 0 emptyStore (Or.inl rfl)

theorem filter_key_filter_not (l : List MappingRow) (code : String) :
    (l.filter fun x => !(x.isrc == code)).filter
      (fun x => x.isrc == code) = [] := by
  rw [List.filter_eq_nil_iff]
  intro x hx
  have h2 := (List.mem_filter.mp hx).2
  simp at h2
  simp [h2]

theorem insertOrReplaceMapping_atMostOne (s : Store) (row : MappingRow)
    (h : atMostOnePerCode s) :
    atMostOnePerCode (insertOrReplaceMapping s row) := by
  intro code
  unfold insertOrReplaceMapping
  simp only [List.filter_cons]
  by_cases hc : (row.isrc == code) = true
  · have heq : row.isrc = code := by simpa using hc
    subst heq
    rw [if_pos (by simp), filter_key_filter_not]
    simp
  · rw [if_neg hc]
    calc ((s.mapping.filter fun x => !(x.isrc == row.isrc)).filter
            (fun x => x.isrc == code)).length
        ≤ (s.mapping.filter fun x => x.isrc == code).length :=
          List.Sublist.length_le
            (List.Sublist.filter _ (List.filter_sublist s.mapping))
      _ ≤ 1 := h code

theorem fetchCandidates_atMostOne (ab : Option String → ABResponse)
    (la : Nat) (r : SourceRecord) :
    ∀ (cs : List Candidate) (s : Store), atMostOnePerCode s →
      atMostOnePerCode (fetchCandidates ab la r s cs).1 := by
  intro cs
  induction cs with
  | nil => intro s h; exact h
  | cons c rest ih =>
    intro s h
    rw [fetchCandidates]
    cases hf : fetch_acousticbrainz_features (ab c.mbid) with
    | some feats =>
      dsimp only
      exact insertOrReplaceMapping_atMostOne _ _ h
    | none =>
      dsimp only
      exact ih s h

theorem processRecord_atMostOne (mb : String → MBResponse)
    (ab : Option String → ABResponse) (la : Nat) (s : Store)
    (r : SourceRecord) (h : atMostOnePerCode s) :
    atMostOnePerCode (processRecord mb ab la s r).1 := by
  unfold processRecord
  cases hm : findMapping s r.isrc with
  | some row => exact h
  | none =>
    cases hl : lookup_isrc_in_musicbrainz (mb r.isrc) with
    | none => exact insertOrReplaceMapping_atMostOne _ _ h
    | some results =>
      dsimp only
      by_cases hlen : results.length = 0
      · rw [if_pos hlen]
        exact insertOrReplaceMapping_atMostOne _ _ h
      · rw [if_neg hlen]
        dsimp only
        have hfetch := fetchCandidates_atMostOne ab la r results s h
        cases hfound : (fetchCandidates ab la r s results).2.2 with
        | true =>
          rw [if_pos (by simp [hfound])]
          exact hfetch
        | false =>
          rw [if_neg (by simp [hfound])]
          exact insertOrReplaceMapping_atMostOne _ _ hfetch

/-- C9: the standardized code is the idempotent key of the outcome table:
if the store holds at most one outcome row per code, so does the store any
run of the Orchestrator produces — every outcome write either inserts a row
for a code with no row or replaces the existing row for that code. -/
theorem at_most_one_outcome_per_code (mb : String → MBResponse)
    (ab : Option String → ABResponse) (la : Nat) :
    ∀ (recs : List SourceRecord) (s : Store), atMostOnePerCode s →
      atMostOnePerCode (runEnrich mb ab la s recs).1 := by
  intro recs
  induction recs with
  | nil => intro s h; exact h
  | cons r rs ih =>
    intro s h
    rw [runEnrich]
    exact ih _ (processRecord_atMostOne mb ab la s r h)

/-- Witness for C9: a run from the empty store keeps at most one outcome
row per code. -/
theorem at_most_one_outcome_per_code_witness :
    atMostOnePerCode (runEnrich mbW abW 0 emptyStore [trackW, trackX]).1 :=
  at_most_one_outcome_per_code mbW abW 0 [trackW, trackX] emptyStore
    (fun code => by simp [emptyStore])

theorem featuresTab_mbid_mono (s : Store) (x : FeatureRow)
    (m : Option String) (h : ∃ fr ∈ s.featuresTab, fr.mbid = m) :
    ∃ fr ∈ (insertOrReplaceFeature s x).featuresTab, fr.mbid = m := by
  obtain ⟨fr, hfr, hm⟩ := h
  by_cases hk : (fr.track_id == x.track_id && fr.mbid == x.mbid) = true
  · refine ⟨x, List.mem_cons_self .., ?_⟩
    have : fr.mbid = x.mbid := by
      have := (Bool.and_eq_true ..).mp hk
      simpa using this.2
    rw [← this, hm]
  · refine ⟨fr, ?_, hm⟩
    right
    exact List.mem_filter.mpr ⟨hfr, by simp at hk ⊢; tauto⟩

theorem fetchCandidates_successHasFeature (ab : Option String → ABResponse)
    (la : Nat) (r : SourceRecord) :
    ∀ (cs : List Candidate) (s : Store), successHasFeature s →
      successHasFeature (fetchCandidates ab la r s cs).1 := by
  intro cs
  induction cs with
  | nil => intro s h; exact h
  | cons c rest ih =>
    intro s h
    rw [fetchCandidates]
    cases hf : fetch_acousticbrainz_features (ab c.mbid) with
    | some feats =>
      dsimp only
      intro row hrow hsucc
      rcases mem_insertOrReplaceMapping hrow with h1 | h1
      · refine ⟨featureRow r c.mbid feats la, List.mem_cons_self .., ?_⟩
        rw [h1]
        rfl
      · have h2 := h row h1 hsucc
        exact featuresTab_mbid_mono s _ _ h2
    | none =>
      dsimp only
      exact ih s h

theorem fetchCandidates_mapping_mem (ab : Option String → ABResponse)
    (la : Nat) (r : SourceRecord) :
    ∀ (cs : List Candidate) (s : Store),
      ∀ row ∈ (fetchCandidates ab la r s cs).1.mapping,
        row ∈ s.mapping ∨ row.lookup_status = "success" := by
  intro cs
  induction cs with
  | nil => intro s row h; exact Or.inl h
  | cons c rest ih =>
    intro s row h
    rw [fetchCandidates] at h
    cases hf : fetch_acousticbrainz_features (ab c.mbid) with
    | some feats =>
      rw [hf] at h
      rcases mem_insertOrReplaceMapping h with h1 | h1
      · right; rw [h1]; rfl
      · exact Or.inl h1
    | none =>
      rw [hf] at h
      exact ih s row h

theorem fetchCandidates_false_all_absent (ab : Option String → ABResponse)
    (la : Nat) (r : SourceRecord) :
    ∀ (cs : List Candidate) (s : Store),
      (fetchCandidates ab la r s cs).2.2 = false →
      ∀ c ∈ cs, fetch_acousticbrainz_features (ab c.mbid) = none := by
  intro cs
  induction cs with
  | nil => intro s _ c hc; simp at hc
  | cons c0 rest ih =>
    intro s hfound c hc
    rw [fetchCandidates] at hfound
    cases hf : fetch_acousticbrainz_features (ab c0.mbid) with
    | some feats => rw [hf] at hfound; simp at hfound
    | none =>
      rw [hf] at hfound
      rcases List.mem_cons.mp hc with h1 | h1
      · rw [h1]; exact hf
      · exact ih s hfound c h1

theorem processRecord_successHasFeature (mb : String → MBResponse)
    (ab : Option String → ABResponse) (la : Nat) (s : Store)
    (r : SourceRecord) (h : successHasFeature s) :
    successHasFeature (processRecord mb ab la s r).1 := by
  unfold processRecord
  cases hm : findMapping s r.isrc with
  | some row => exact h
  | none =>
    cases hl : lookup_isrc_in_musicbrainz (mb r.isrc) with
    | none =>
      intro row hrow hsucc
      rcases mem_insertOrReplaceMapping hrow with h1 | h1
      · rw [h1] at hsucc
        exact absurd hsucc (by simp [mappingRow])
      · exact h row h1 hsucc
    | some results =>
      dsimp only
      by_cases hlen : results.length = 0
      · rw [if_pos hlen]
        intro row hrow hsucc
        rcases mem_insertOrReplaceMapping hrow with h1 | h1
        · rw [h1] at hsucc
          exact absurd hsucc (by simp [mappingRow])
        · exact h row h1 hsucc
      · rw [if_neg hlen]
        dsimp only
        have hfetch := fetchCandidates_successHasFeature ab la r results s h
        cases hfound : (fetchCandidates ab la r s results).2.2 with
        | true =>
          rw [if_pos (by simp [hfound])]
          exact hfetch
        | false =>
          rw [if_neg (by simp [hfound])]
          intro row hrow hsucc
          rcases mem_insertOrReplaceMapping hrow with h1 | h1
          · rw [h1] at hsucc
            exact absurd hsucc (by simp [mappingRow])
          · exact hfetch row h1 hsucc

/-- The property C8 asserts of freshly written `no_ab_data` rows: the
resolver found a non-empty candidate list for the row's code, the row
carries the first candidate's external id, and fetching that id yielded no
features. -/
def noAbDataSound (mb : String → MBResponse) (ab : Option String → ABResponse)
    (row : MappingRow) : Prop :=
  ∃ c cs, lookup_isrc_in_musicbrainz (mb row.isrc) = some (c :: cs) ∧
    row.mbid = c.mbid ∧ fetch_acousticbrainz_features (ab c.mbid) = none

theorem processRecord_noAbData_sound (mb : String → MBResponse)
    (ab : Option String → ABResponse) (la : Nat) (s : Store)
    (r : SourceRecord) :
    ∀ row ∈ (processRecord mb ab la s r).1.mapping, row ∉ s.mapping →
      row.lookup_status = "no_ab_data" → noAbDataSound mb ab row := by
  unfold processRecord
  cases hm : findMapping s r.isrc with
  | some row => intro row hrow hnot _; exact absurd hrow hnot
  | none =>
    cases hl : lookup_isrc_in_musicbrainz (mb r.isrc) with
    | none =>
      intro row hrow hnot hst
      rcases mem_insertOrReplaceMapping hrow with h1 | h1
      · rw [h1] at hst
        exact absurd hst (by simp [mappingRow])
      · exact absurd h1 hnot
    | some results =>
      dsimp only
      by_cases hlen : results.length = 0
      · rw [if_pos hlen]
        intro row hrow hnot hst
        rcases mem_insertOrReplaceMapping hrow with h1 | h1
        · rw [h1] at hst
          exact absurd hst (by simp [mappingRow])
        · exact absurd h1 hnot
      · rw [if_neg hlen]
        dsimp only
        cases hfound : (fetchCandidates ab la r s results).2.2 with
        | true =>
          rw [if_pos (by simp [hfound])]
          intro row hrow hnot hst
          rcases fetchCandidates_mapping_mem ab la r results s row hrow
            with h1 | h1
          · exact absurd h1 hnot
          · rw [hst] at h1
            exact absurd h1 (by simp)
        | false =>
          rw [if_neg (by simp [hfound])]
          have hsame := fetchCandidates_not_found_store ab la r results s hfound
          intro row hrow hnot hst
          rw [hsame] at hrow
          rcases mem_insertOrReplaceMapping hrow with h1 | h1
          · cases results with
            | nil => exact absurd rfl hlen
            | cons c0 rest =>
              refine ⟨c0, rest, ?_, ?_, ?_⟩
              · rw [h1]
                exact hl
              · rw [h1]
                rfl
              · exact fetchCandidates_false_all_absent ab la r (c0 :: rest) s
                  hfound c0 (List.mem_cons_self ..)
          · exact absurd h1 hnot

/-- C8: in every store a run produces from a store satisfying the
success-implies-feature invariant, every `success` outcome row has a
feature row for its matched external id; and every freshly written
`no_ab_data` row carries an external id the resolver found (the first
candidate) whose fetch yielded no features. -/
theorem success_implies_feature (mb : String → MBResponse)
    (ab : Option String → ABResponse) (la : Nat) :
    ∀ (recs : List SourceRecord) (s : Store), successHasFeature s →
      successHasFeature (runEnrich mb ab la s recs).1 ∧
      (∀ row ∈ (runEnrich mb ab la s recs).1.mapping, row ∉ s.mapping →
        row.lookup_status = "no_ab_data" → noAbDataSound mb ab row) := by
  intro recs
  induction recs with
  | nil =>
    intro s h
    exact ⟨h, fun row hrow hnot _ => absurd hrow hnot⟩
  | cons r rs ih =>
    intro s h
    rw [runEnrich]
    have h1 := processRecord_successHasFeature mb ab la s r h
    have hi := ih (processRecord mb ab la s r).1 h1
    refine ⟨hi.1, ?_⟩
    intro row hrow hnot hst
    by_cases h2 : row ∈ (processRecord mb ab la s r).1.mapping
    · exact processRecord_noAbData_sound mb ab la s r row h2 hnot hst
    · exact hi.2 row hrow h2 hst

/-- Witness for C8 over a run in which the resolver finds candidates but no
features exist. -/
theorem success_implies_feature_witness :
    successHasFeature (runEnrich mbABC abAllAbsent 0 emptyStore [trackX]).1 ∧
    (∀ row ∈ (runEnrich mbABC abAllAbsent 0 emptyStore [trackX]).1.mapping,
      row ∉ emptyStore.mapping →
      row.lookup_status = "no_ab_data" →
      noAbDataSound mbABC abAllAbsent row) :=
  success_implies_feature mbABC abAllAbsent 0 [trackX] emptyStore
    (fun row hrow => absurd hrow (by simp [emptyStore]))

/-- C10: the resolver reports a 200 response with an empty recordings list
exactly like a 404 (the empty list, the orchestrator's not-found marker);
a 200 response with a non-empty recordings list always yields a non-empty
candidate list; and whenever the orchestrator issues any fetcher call for a
record, the resolver returned a non-empty candidate list for that record's
code, so taking the first candidate is safe. -/
theorem resolver_never_found_empty :
    (∀ resp, lookup_isrc_in_musicbrainz resp = some [] ↔
      resp = MBResponse.notFound ∨ resp = MBResponse.ok []) ∧
    (∀ recs, recs ≠ [] →
      ∃ c cs, lookup_isrc_in_musicbrainz (MBResponse.ok recs)
        = some (c :: cs)) ∧
    (∀ (mb : String → MBResponse) (ab : Option String → ABResponse)
      (la : Nat) (s : Store) (r : SourceRecord) (m : Option String),
      Ev.callAB m ∈ (processRecord mb ab la s r).2 →
      ∃ c cs, lookup_isrc_in_musicbrainz (mb r.isrc) = some (c :: cs)) := by
  refine ⟨?_, ?_, ?_⟩
  · intro resp
    cases resp with
    | ok recordings =>
      cases recordings with
      | nil => simp [lookup_isrc_in_musicbrainz]
      | cons a t => simp [lookup_isrc_in_musicbrainz]
    | notFound => simp [lookup_isrc_in_musicbrainz]
    | otherStatus c => simp [lookup_isrc_in_musicbrainz]
    | exn => simp [lookup_isrc_in_musicbrainz]
  · intro recs h
    cases recs with
    | nil => exact absurd rfl h
    | cons a t => exact ⟨_, _, rfl⟩
  · intro mb ab la s r m
    unfold processRecord
    cases hm : findMapping s r.isrc with
    | some row =>
      dsimp only
      intro h
      simp at h
    | none =>
      cases hl : lookup_isrc_in_musicbrainz (mb r.isrc) with
      | none =>
        dsimp only
        intro h
        simp at h
      | some results =>
        dsimp only
        by_cases hlen : results.length = 0
        · rw [if_pos hlen]
          intro h
          simp at h
        · intro _
          cases results with
          | nil => exact absurd rfl hlen
          | cons c cs => exact ⟨c, cs, rfl⟩

/-- Witness for C10: a single-recording 200 response yields a non-empty
candidate list, and a concrete run's fetcher call has a non-empty resolver
result behind it. -/
theorem resolver_never_found_empty_witness :
    (∃ c cs, lookup_isrc_in_musicbrainz (MBResponse.ok [recordingW])
      = some (c :: cs)) ∧
    (∃ c cs, lookup_isrc_in_musicbrainz (mbW trackW.isrc)
      = some (c :: cs)) :=
  ⟨resolver_never_found_empty.2.1 [recordingW] (by decide),
   resolver_never_found_empty.2.2 mbW abW 0 emptyStore trackW
     (some "mbid-1") (by decide)⟩

/-! ### C5: the exception model -/

theorem fetchCandidatesExc_noFail (ab : Option String → ABResponse)
    (la : Nat) (r : SourceRecord) :
    ∀ (cs : List Candidate) (s : Store),
      fetchCandidatesExc ab noFailBehavior la r s cs
        = fetchCandidates ab la r s cs := by
  intro cs
  induction cs with
  | nil => intro s; rfl
  | cons c rest ih =>
    intro s
    rw [fetchCandidatesExc, fetchCandidates]
    cases hf : fetch_acousticbrainz_features (ab c.mbid) with
    | some feats => simp [noFailBehavior]
    | none => simp only []; rw [ih]

theorem processRecordExc_noFail (mb : String → MBResponse)
    (ab : Option String → ABResponse) (la : Nat) (s : Store)
    (r : SourceRecord) :
    processRecordExc mb ab noFailBehavior la s r
      = Except.ok (processRecord mb ab la s r) := by
  unfold processRecordExc processRecord
  cases hm : findMapping s r.isrc with
  | some row => rfl
  | none =>
    cases hl : lookup_isrc_in_musicbrainz (mb r.isrc) with
    | none => simp [noFailBehavior]
    | some results =>
      dsimp only
      by_cases hlen : results.length = 0
      · rw [if_pos hlen, if_pos hlen]
        simp [noFailBehavior]
      · rw [if_neg hlen, if_neg hlen]
        rw [fetchCandidatesExc_noFail]
        cases hfound : (fetchCandidates ab la r s results).2.2 with
        | true =>
          rw [if_pos (by simp [hfound]), if_pos (by simp [hfound])]
        | false =>
          rw [if_neg (by simp [hfound])]
          rw [if_neg (by simp [noFailBehavior])]
          rw [if_neg (by simp [hfound])]

theorem runEnrichExc_noFail (mb : String → MBResponse)
    (ab : Option String → ABResponse) (la : Nat) :
    ∀ (recs : List SourceRecord) (s : Store),
      runEnrichExc mb ab noFailBehavior la s recs
        = Except.ok (runEnrich mb ab la s recs) := by
  intro recs
  induction recs with
  | nil => intro s; rfl
  | cons r rs ih =>
    intro s
    rw [runEnrichExc, runEnrich, processRecordExc_noFail]
    dsimp only
    rw [ih]

theorem processRecordExc_ok (mb : String → MBResponse)
    (ab : Option String → ABResponse) (beh : StoreBehavior) (la : Nat)
    (hbeh : ∀ row : MappingRow, row.lookup_status ≠ "success" →
      beh.mappingWriteFails row = false) (s : Store) (r : SourceRecord) :
    ∃ out, processRecordExc mb ab beh la s r = Except.ok out := by
  unfold processRecordExc
  cases hm : findMapping s r.isrc with
  | some row => exact ⟨_, rfl⟩
  | none =>
    cases hl : lookup_isrc_in_musicbrainz (mb r.isrc) with
    | none =>
      dsimp only
      have hw := hbeh (mappingRow r none "error" la) (by simp [mappingRow])
      rw [if_neg (by simp [hw])]
      exact ⟨_, rfl⟩
    | some results =>
      dsimp only
      by_cases hlen : results.length = 0
      · rw [if_pos hlen]
        have hw := hbeh (mappingRow r none "not_found" la) (by simp [mappingRow])
        rw [if_neg (by simp [hw])]
        exact ⟨_, rfl⟩
      · rw [if_neg hlen]
        cases hfound : (fetchCandidatesExc ab beh la r s results).2.2 with
        | true =>
          rw [if_pos (by simp [hfound])]
          exact ⟨_, rfl⟩
        | false =>
          rw [if_neg (by simp [hfound])]
          have hw := hbeh (mappingRow r
            (match results.head? with
             | some c => c.mbid
             | none => none) "no_ab_data" la) (by simp [mappingRow])
          rw [if_neg (by simp [hw])]
          exact ⟨_, rfl⟩

/-- C5, amended: an exception inside an external call never reaches the
loop (both helpers catch everything and return an error marker), and an
exception raised inside the candidate-loop `try` block (the feature insert
or the success outcome insert) is caught and only affects that candidate
attempt; under any store behavior in which the unprotected non-success
outcome writes do not raise, every run completes over all records. -/
theorem per_record_isolation_amended (mb : String → MBResponse)
    (ab : Option String → ABResponse) (beh : StoreBehavior) (la : Nat)
    (hbeh : ∀ row : MappingRow, row.lookup_status ≠ "success" →
      beh.mappingWriteFails row = false) :
    ∀ (recs : List SourceRecord) (s : Store),
      ∃ out, runEnrichExc mb ab beh la s recs = Except.ok out := by
  intro recs
  induction recs with
  | nil => intro s; exact ⟨_, rfl⟩
  | cons r rs ih =>
    intro s
    obtain ⟨⟨s1, evs⟩, hout⟩ := processRecordExc_ok mb ab beh la hbeh s r
    obtain ⟨out2, hout2⟩ := ih s1
    rw [runEnrichExc, hout]
    dsimp only
    rw [hout2]
    exact ⟨_, rfl⟩

/-- Witness for C5's amended claim: a store behavior in which every
feature-table write and every success-row write raises still lets the run
complete (the raises happen inside the `try` block). -/
theorem per_record_isolation_amended_witness :
    ∃ out, runEnrichExc mbW abW behFeatFail 0 emptyStore [trackW, trackX]
      = Except.ok out :=
  per_record_isolation_amended mbW abW behFeatFail 0
    (fun row h => by simpa [behFeatFail] using h) [trackW, trackX]
    emptyStore

/-- Counterexample to C5 as stated: with a store whose writes raise, the
first record's `not_found` outcome write (outside any `try` block) aborts
the whole run — the second record is never processed, so a failure on one
record is not isolated to that record. -/
theorem per_record_isolation_counterexample :
    runEnrichExc mbAllNotFound abW behAllFail 0 emptyStore [trackW, trackX]
      = Except.error [Ev.callMB "JPU01700001"] := rfl

/-! ### C4: pacing lemmas -/

theorem countCalls_append (xs ys : List Ev) :
    countCalls (xs ++ ys) = countCalls xs + countCalls ys := by
  induction xs with
  | nil => simp [countCalls]
  | cons e t ih => simp [countCalls, ih, Nat.add_assoc]

theorem totalSleepTenths_append (xs ys : List Ev) :
    totalSleepTenths (xs ++ ys)
      = totalSleepTenths xs + totalSleepTenths ys := by
  induction xs with
  | nil => simp [totalSleepTenths]
  | cons e t ih =>
    cases e <;> simp [totalSleepTenths, ih, Nat.add_assoc]

theorem pairCount_cons2 (p : Ev → Ev → Bool) (a b : Ev) (t : List Ev) :
    pairCount p (a :: b :: t)
      = (if p a b then 1 else 0) + pairCount p (b :: t) := rfl

theorem pairCount_sleep_cons (p : Ev → Ev → Bool)
    (hp : ∀ d y, p (Ev.sleep d) y = false) (d : Nat) (X : List Ev) :
    pairCount p (Ev.sleep d :: X) = pairCount p X := by
  cases X with
  | nil => rfl
  | cons y t =>
    rw [pairCount_cons2, hp]
    simp

theorem pairCount_append_endsSleep (p : Ev → Ev → Bool)
    (hp : ∀ d y, p (Ev.sleep d) y = false) :
    ∀ xs ys, endsSleepOrNil xs →
      pairCount p (xs ++ ys) = pairCount p xs + pairCount p ys := by
  intro xs
  induction xs with
  | nil => intro ys _; simp [pairCount]
  | cons a t ih =>
    intro ys h
    cases t with
    | nil =>
      rcases h with h | ⟨d, hd⟩
      · exact absurd h (by simp)
      · have ha : a = Ev.sleep d := by simpa using hd
        subst ha
        rw [List.singleton_append, pairCount_sleep_cons p hp]
        simp [pairCount]
    | cons b t' =>
      have h2 : endsSleepOrNil (b :: t') := by
        rcases h with h | ⟨d, hd⟩
        · exact absurd h (by simp)
        · exact Or.inr ⟨d, by simpa [List.getLast?_cons_cons] using hd⟩
      rw [List.cons_append, List.cons_append,
        pairCount_cons2 p a b (t' ++ ys), pairCount_cons2 p a b t',
        ← List.cons_append, ih ys h2, Nat.add_assoc]

theorem pairCount_absent_prefix (p : Ev → Ev → Bool)
    (hp1 : ∀ a d, p a (Ev.sleep d) = false)
    (hp2 : ∀ d y, p (Ev.sleep d) y = false) :
    ∀ (cs : List Candidate) (rest : List Ev),
      pairCount p
        ((cs.map fun c => [Ev.callAB c.mbid, Ev.sleep 10]).flatten ++ rest)
        = pairCount p rest := by
  intro cs
  induction cs with
  | nil => intro rest; simp
  | cons c cs' ih =>
    intro rest
    have hsh : (List.map (fun c => [Ev.callAB c.mbid, Ev.sleep 10])
          (c :: cs')).flatten ++ rest
        = Ev.callAB c.mbid :: Ev.sleep 10 ::
            ((cs'.map fun c => [Ev.callAB c.mbid, Ev.sleep 10]).flatten
              ++ rest) := by
      simp
    rw [hsh, pairCount_cons2, hp1, pairCount_sleep_cons p hp2, ih rest]
    simp

theorem countCalls_absent_flatten (cs : List Candidate) :
    countCalls ((cs.map fun c => [Ev.callAB c.mbid, Ev.sleep 10]).flatten)
      = cs.length := by
  induction cs with
  | nil => rfl
  | cons c cs' ih =>
    rw [List.map_cons, List.flatten_cons, countCalls_append, ih]
    simp [countCalls, isCall, Nat.add_comm]

theorem totalSleep_absent_flatten (cs : List Candidate) :
    totalSleepTenths
        ((cs.map fun c => [Ev.callAB c.mbid, Ev.sleep 10]).flatten)
      = 10 * cs.length := by
  induction cs with
  | nil => rfl
  | cons c cs' ih =>
    rw [List.map_cons, List.flatten_cons, totalSleepTenths_append, ih]
    simp [totalSleepTenths]
    omega

theorem exists_first_success (ab : Option String → ABResponse) :
    ∀ (cs : List Candidate),
      (¬ ∀ c ∈ cs, fetch_acousticbrainz_features (ab c.mbid) = none) →
      ∃ pre c rest f, cs = pre ++ c :: rest ∧
        (∀ x ∈ pre, fetch_acousticbrainz_features (ab x.mbid) = none) ∧
        fetch_acousticbrainz_features (ab c.mbid) = some f := by
  intro cs
  induction cs with
  | nil => intro h; exact absurd (by simp) h
  | cons c0 rest0 ih =>
    intro h
    cases hf : fetch_acousticbrainz_features (ab c0.mbid) with
    | some f => exact ⟨[], c0, rest0, f, rfl, by simp, hf⟩
    | none =>
      have h2 : ¬ ∀ c ∈ rest0,
          fetch_acousticbrainz_features (ab c.mbid) = none := by
        intro hall
        refine h (fun c hc => ?_)
        rcases List.mem_cons.mp hc with h1 | h1
        · rw [h1]; exact hf
        · exact hall c h1
      obtain ⟨pre, c, rest, f, hsplit, hpre, hc⟩ := ih h2
      refine ⟨c0 :: pre, c, rest, f, by rw [List.cons_append, ← hsplit],
        ?_, hc⟩
      intro x hx
      rcases List.mem_cons.mp hx with h1 | h1
      · rw [h1]; exact hf
      · exact hpre x h1

theorem pairCount_nil (p : Ev → Ev → Bool) : pairCount p [] = 0 := rfl

theorem pairCount_single (p : Ev → Ev → Bool) (a : Ev) :
    pairCount p [a] = 0 := rfl

theorem processRecord_pacing (mb : String → MBResponse)
    (ab : Option String → ABResponse) (la : Nat) (s : Store)
    (r : SourceRecord) :
    badAdjacentPairs (processRecord mb ab la s r).2 = 0 ∧
    10 * countCalls (processRecord mb ab la s r).2 ≤
      totalSleepTenths (processRecord mb ab la s r).2
        + 10 * unpacedPairs (processRecord mb ab la s r).2 ∧
    endsSleepOrNil (processRecord mb ab la s r).2 := by
  have hpB1 : ∀ (a : Ev) (d : Nat),
      (isCall a && isCall (Ev.sleep d) && !(isMBthenAB a (Ev.sleep d)))
        = false := by intro a d; simp [isCall]
  have hpB2 : ∀ (d : Nat) (y : Ev),
      (isCall (Ev.sleep d) && isCall y && !(isMBthenAB (Ev.sleep d) y))
        = false := by intro d y; simp [isCall]
  have hpU1 : ∀ (a : Ev) (d : Nat),
      (isCall a && isCall (Ev.sleep d)) = false := by
    intro a d; simp [isCall]
  have hpU2 : ∀ (d : Nat) (y : Ev),
      (isCall (Ev.sleep d) && isCall y) = false := by
    intro d y; simp [isCall]
  unfold processRecord
  cases hm : findMapping s r.isrc with
  | some row =>
    refine ⟨rfl, by simp [countCalls, totalSleepTenths, unpacedPairs,
      pairCount], Or.inl rfl⟩
  | none =>
    cases hl : lookup_isrc_in_musicbrainz (mb r.isrc) with
    | none =>
      refine ⟨rfl, by simp [countCalls, totalSleepTenths, unpacedPairs,
        pairCount, isCall], Or.inr ⟨10, by simp⟩⟩
    | some results =>
      dsimp only
      by_cases hlen : results.length = 0
      · rw [if_pos hlen]
        refine ⟨rfl, by simp [countCalls, totalSleepTenths, unpacedPairs,
          pairCount, isCall], Or.inr ⟨10, by simp⟩⟩
      · rw [if_neg hlen]
        dsimp only
        by_cases habs : ∀ c ∈ results,
            fetch_acousticbrainz_features (ab c.mbid) = none
        · -- every candidate absent: the exhaustion path
          rw [fetchCandidates_all_absent ab la r results s habs]
          dsimp only
          cases results with
          | nil => exact absurd rfl hlen
          | cons c0 cs =>
            refine ⟨?_, ?_, Or.inr ⟨15, List.getLast?_concat _⟩⟩
            · simp only [badAdjacentPairs, List.map_cons, List.flatten_cons,
                List.cons_append, List.nil_append, List.append_assoc]
              rw [pairCount_cons2, pairCount_cons2,
                pairCount_sleep_cons _ hpB2,
                pairCount_absent_prefix _ hpB1 hpB2]
              simp [isCall, isMBthenAB, pairCount_single]
            · simp only [unpacedPairs, List.map_cons, List.flatten_cons,
                List.cons_append, List.nil_append, List.append_assoc]
              rw [pairCount_cons2, pairCount_cons2,
                pairCount_sleep_cons _ hpU2,
                pairCount_absent_prefix _ hpU1 hpU2]
              simp only [countCalls, totalSleepTenths, isCall]
              rw [countCalls_append, totalSleepTenths_append,
                countCalls_absent_flatten, totalSleep_absent_flatten]
              simp [countCalls, totalSleepTenths, pairCount_single, isCall]
              omega
        · -- some candidate succeeds: the first-match path
          obtain ⟨pre, c, rest, f, hsplit, hpre, hc⟩ :=
            exists_first_success ab results habs
          rw [hsplit,
            fetchCandidates_first_success ab la r c rest f hc pre s hpre]
          dsimp only
          refine ⟨?_, ?_, Or.inr ⟨15, List.getLast?_concat _⟩⟩
          · cases pre with
            | nil =>
              simp only [badAdjacentPairs, List.map_nil, List.flatten_nil,
                List.cons_append, List.nil_append, List.append_assoc]
              rw [pairCount_cons2, pairCount_cons2]
              simp [isCall, isMBthenAB, pairCount_single]
            | cons p0 pre' =>
              simp only [badAdjacentPairs, List.map_cons, List.flatten_cons,
                List.cons_append, List.nil_append, List.append_assoc]
              rw [pairCount_cons2, pairCount_cons2,
                pairCount_sleep_cons _ hpB2,
                pairCount_absent_prefix _ hpB1 hpB2]
              rw [pairCount_cons2]
              simp [isCall, isMBthenAB, pairCount_single]
          · cases pre with
            | nil =>
              simp only [unpacedPairs, List.map_nil, List.flatten_nil,
                List.cons_append, List.nil_append, List.append_assoc]
              rw [pairCount_cons2, pairCount_cons2]
              simp [countCalls, totalSleepTenths, isCall, pairCount_single]
            | cons p0 pre' =>
              simp only [unpacedPairs, List.map_cons, List.flatten_cons,
                List.cons_append, List.nil_append, List.append_assoc]
              rw [pairCount_cons2, pairCount_cons2,
                pairCount_sleep_cons _ hpU2,
                pairCount_absent_prefix _ hpU1 hpU2]
              rw [pairCount_cons2]
              simp only [countCalls, totalSleepTenths, isCall]
              rw [countCalls_append, totalSleepTenths_append,
                countCalls_absent_flatten, totalSleep_absent_flatten]
              simp [countCalls, totalSleepTenths, pairCount_single, isCall]
              omega

theorem runEnrich_pacing (mb : String → MBResponse)
    (ab : Option String → ABResponse) (la : Nat) :
    ∀ (recs : List SourceRecord) (s : Store),
      badAdjacentPairs (runEnrich mb ab la s recs).2 = 0 ∧
      10 * countCalls (runEnrich mb ab la s recs).2 ≤
        totalSleepTenths (runEnrich mb ab la s recs).2
          + 10 * unpacedPairs (runEnrich mb ab la s recs).2 := by
  have hpB2 : ∀ (d : Nat) (y : Ev),
      (isCall (Ev.sleep d) && isCall y && !(isMBthenAB (Ev.sleep d) y))
        = false := by intro d y; simp [isCall]
  have hpU2 : ∀ (d : Nat) (y : Ev),
      (isCall (Ev.sleep d) && isCall y) = false := by
    intro d y; simp [isCall]
  intro recs
  induction recs with
  | nil =>
    intro s
    exact ⟨rfl, by simp [countCalls, totalSleepTenths, unpacedPairs,
      pairCount]⟩
  | cons r rs ih =>
    intro s
    rw [runEnrich]
    dsimp only
    obtain ⟨hb, hq, hends⟩ := processRecord_pacing mb ab la s r
    obtain ⟨hb2, hq2⟩ := ih (processRecord mb ab la s r).1
    constructor
    · unfold badAdjacentPairs at hb hb2 ⊢
      rw [pairCount_append_endsSleep _ hpB2 _ _ hends, hb, hb2]
    · rw [countCalls_append, totalSleepTenths_append]
      unfold unpacedPairs at hq hq2 ⊢
      rw [pairCount_append_endsSleep _ hpU2 _ _ hends]
      omega

/-- C4, amended: a resolver call that returns a non-empty candidate list is
immediately followed by the first fetcher call with no intervening sleep
(every adjacent unslept call pair of any trace is of that form), and every
other external call is followed by a pacing delay; consequently the total
slept time is at least (number of external calls − number of such
resolver-to-fetcher transitions) × the 1 s minimum pacing interval. -/
theorem pacing_amended (mb : String → MBResponse)
    (ab : Option String → ABResponse) (la : Nat) (s : Store)
    (recs : List SourceRecord) :
    badAdjacentPairs (runEnrich mb ab la s recs).2 = 0 ∧
    10 * (countCalls (runEnrich mb ab la s recs).2
        - unpacedPairs (runEnrich mb ab la s recs).2)
      ≤ totalSleepTenths (runEnrich mb ab la s recs).2 := by
  obtain ⟨hb, hq⟩ := runEnrich_pacing mb ab la recs s
  exact ⟨hb, by omega⟩

/-- Counterexample to C4 as stated: in the run where the resolver finds one
candidate and the fetch succeeds, the resolver call is immediately followed
by the fetcher call with no sleep in between, and the run's total slept
time (1.5 s for 2 external calls) is below 2 calls × the 1 s minimum
pacing interval. -/
theorem pacing_counterexample :
    (runEnrich mbW abW 0 emptyStore [trackW]).2 =
      [Ev.callMB "JPU01700001", Ev.callAB (some "mbid-1"), Ev.sleep 15] ∧
    pacedTrace (runEnrich mbW abW 0 emptyStore [trackW]).2 = false ∧
    totalSleepTenths (runEnrich mbW abW 0 emptyStore [trackW]).2 <
      10 * countCalls (runEnrich mbW abW 0 emptyStore [trackW]).2 := by
  refine ⟨by decide, by decide, by decide⟩

end Enrich
